import Mathlib

/-!
Verification of the electricity-monitor core (`main.py`).

The consumption-rate estimator and its helpers are embedded shallowly:

* timestamps are modelled as exact rationals (seconds on an absolute axis);
  `datetime` subtraction followed by `total_seconds()` becomes subtraction in `ℚ`;
* Python `float` arithmetic is modelled by exact rational arithmetic;
* a history record `{"time": ..., "kwh": ...}` becomes the structure `Rec`
  (the parsed `rec_dt` of the source is recoverable as `Rec.time`, so the
  best-match pair `(rec, rec_dt)` is carried as the record alone, with the
  running `min_diff` threaded separately, exactly as in the source);
* Python `round(x, n)` (round-half-to-even) becomes `pyRound`;
* the estimator threads the (shared, mutable in Python) history through
  explicitly and returns it next to the estimate, so that frame properties
  can be stated;
* `load_json` abstracts the file system as the optional contents of the
  backing file and the JSON parser as a fallible function, so that the
  "absent or corrupt store yields the default, never raises" behaviour is a
  total function.
-/

namespace ElectronMonitor

/-- One history record of `data.json`: a timestamp (seconds, exact) and the
balance reading in kWh.  Mirrors the dict `{"time": ..., "kwh": ...}`. -/
structure Rec where
  time : ℚ
  kwh : ℚ
deriving DecidableEq

/-- The value returned by `calculate_estimated_time`:
`{"power_1h": ..., "power_24h": ..., "hours_left": ...}`. -/
structure Estimate where
  power_1h : ℚ
  power_24h : ℚ
  hours_left : ℚ
deriving DecidableEq

/-- `diff < min_diff` where `none` plays the role of the initial
`float('inf')` of the source. -/
def diffLt (d : ℚ) : Option ℚ → Prop
  | none => True
  | some m => d < m

instance instDecidableDiffLt (d : ℚ) : (m : Option ℚ) → Decidable (diffLt d m)
  | none => isTrue trivial
  | some m => inferInstanceAs (Decidable (d < m))

/-- The loop body of `find_past_record` (`main.py` lines 103-116): walk the
(already reversed) history, update `best_match`/`min_diff` whenever the
absolute difference to `target_time` strictly decreases, and stop as soon as
a record's difference exceeds `bound` seconds. -/
def find_aux (target bound : ℚ) : List Rec → Option Rec → Option ℚ → Option Rec
  | [], best, _ => best
  | r :: rest, best, minDiff =>
    let diff := |r.time - target|
    let best' := if diffLt diff minDiff then some r else best
    let minDiff' := if diffLt diff minDiff then some diff else minDiff
    if bound < diff then best' else find_aux target bound rest best' minDiff'

/-- `find_past_record(delta_hours)` (`main.py` lines 97-116): search the
history, newest first, for the record closest to
`current_time - delta_hours`; abort once the difference exceeds
`3600 * (delta_hours + 1)` seconds. -/
def find_past_record (current_time : ℚ) (history : List Rec) (delta_hours : ℚ) :
    Option Rec :=
  find_aux (current_time - 3600 * delta_hours) (3600 * (delta_hours + 1))
    history.reverse none none

/-- The per-lag rate computation (`main.py` lines 122-139): if a reference
record was matched and the elapsed time exceeds `min_hours`, divide the
balance drop by the elapsed hours, otherwise the rate stays `0`. -/
def power_from_match (mth : Option Rec) (current_kwh current_time min_hours : ℚ) : ℚ :=
  match mth with
  | none => 0
  | some r =>
    let time_diff_h := (current_time - r.time) / 3600
    let kwh_diff := r.kwh - current_kwh
    if min_hours < time_diff_h then kwh_diff / time_diff_h else 0

/-- The combine step (`main.py` lines 141-149): prefer `power_1h`; if it is
non-positive fall back to `power_24h`; if the result is still at most
`0.001`, clamp it to `0.01`. -/
def combine_power (power_1h power_24h : ℚ) : ℚ :=
  let used0 := power_1h
  let used1 := if used0 ≤ 0 then power_24h else used0
  if used1 ≤ 1 / 1000 then 1 / 100 else used1

/-- Round-half-to-even to the nearest integer, the tie-breaking rule of
Python's built-in `round`. -/
def roundHalfEven (x : ℚ) : ℤ :=
  if x - ⌊x⌋ < 1 / 2 then ⌊x⌋
  else if 1 / 2 < x - ⌊x⌋ then ⌊x⌋ + 1
  else if 2 ∣ ⌊x⌋ then ⌊x⌋ else ⌊x⌋ + 1

/-- Python's `round(x, ndigits)` over exact rationals. -/
def pyRound (x : ℚ) (ndigits : ℕ) : ℚ :=
  (roundHalfEven (x * 10 ^ ndigits) : ℚ) / 10 ^ ndigits

/-- `calculate_estimated_time` (`main.py` lines 85-159).  The history — the
only shared mutable object the Python function touches — is threaded through
and returned next to the estimate, making the frame of the function explicit:
the current revision only reads it. -/
def calculate_estimated_time (history : List Rec) (current_kwh current_time : ℚ) :
    Estimate × List Rec :=
  if history = [] then
    ({ power_1h := 0, power_24h := 0, hours_left := 9999 }, history)
  else
    let match_1h := find_past_record current_time history 1
    let match_24h := find_past_record current_time history 24
    let power_1h := power_from_match match_1h current_kwh current_time (1 / 10)
    let power_24h := power_from_match match_24h current_kwh current_time (1 / 2)
    let used_power := combine_power power_1h power_24h
    let hours_left := if 0 < current_kwh then current_kwh / used_power else 9999
    ({ power_1h := pyRound power_1h 3,
       power_24h := pyRound power_24h 3,
       hours_left := pyRound hours_left 1 }, history)

/-- The estimate component of `calculate_estimated_time`. -/
def estimate (history : List Rec) (current_kwh current_time : ℚ) : Estimate :=
  (calculate_estimated_time history current_kwh current_time).1

/-- The time-critical alert condition (`main.py` line 223):
`stats['hours_left'] < alert_threshold_hours and stats['hours_left'] > 0`. -/
def time_alert (hours_left threshold : ℚ) : Bool :=
  decide (hours_left < threshold) && decide (0 < hours_left)

/-- `load_json` (`main.py` lines 18-25).  The backing file is abstracted as
its optional contents (`none` = the file does not exist) and `json.load` as a
fallible parser; a parse failure is the `except` branch.  The function is
total: it never propagates an error. -/
def load_json {α : Type} (contents : Option String) (parse : String → Option α)
    (default : α) : α :=
  match contents with
  | none => default
  | some s =>
    match parse s with
    | some v => v
    | none => default

/-! ### Helper lemmas -/

lemma combine_power_pos (p1 p24 : ℚ) : 0 < combine_power p1 p24 := by
  simp only [combine_power]
  split_ifs <;> linarith

lemma le_roundHalfEven (x : ℚ) : ⌊x⌋ ≤ roundHalfEven x := by
  unfold roundHalfEven
  split_ifs <;> omega

lemma roundHalfEven_intCast (k : ℤ) : roundHalfEven (k : ℚ) = k := by
  unfold roundHalfEven
  rw [Int.floor_intCast]
  norm_num

lemma pyRound_nonneg {x : ℚ} (hx : 0 ≤ x) (n : ℕ) : 0 ≤ pyRound x n := by
  unfold pyRound
  apply div_nonneg _ (by positivity)
  have h1 : (0 : ℤ) ≤ ⌊x * 10 ^ n⌋ := Int.floor_nonneg.mpr (by positivity)
  exact_mod_cast h1.trans (le_roundHalfEven (x * 10 ^ n))

lemma pyRound_intCast (k : ℤ) (n : ℕ) : pyRound (k : ℚ) n = k := by
  unfold pyRound
  have h : (k : ℚ) * 10 ^ n = ((k * 10 ^ n : ℤ) : ℚ) := by push_cast; ring
  rw [h, roundHalfEven_intCast]
  push_cast
  rw [mul_div_assoc, div_self (by positivity), mul_one]

lemma pyRound_zero (n : ℕ) : pyRound 0 n = 0 := by
  have h := pyRound_intCast 0 n
  norm_num at h
  exact h

lemma pyRound_9999 : pyRound 9999 1 = 9999 := by
  have h := pyRound_intCast 9999 1
  norm_num at h
  exact h

/-- The non-empty branch of `calculate_estimated_time`, written out. -/
lemma calculate_estimated_time_ne_nil (H : List Rec) (hH : H ≠ []) (c t : ℚ) :
    calculate_estimated_time H c t =
      ({ power_1h := pyRound (power_from_match (find_past_record t H 1) c t (1 / 10)) 3,
         power_24h := pyRound (power_from_match (find_past_record t H 24) c t (1 / 2)) 3,
         hours_left := pyRound (if 0 < c then
             c / combine_power (power_from_match (find_past_record t H 1) c t (1 / 10))
               (power_from_match (find_past_record t H 24) c t (1 / 2))
           else 9999) 1 }, H) := by
  unfold calculate_estimated_time
  rw [if_neg hH]

/-- The estimate returned on a non-empty history, written out. -/
lemma estimate_ne_nil (H : List Rec) (hH : H ≠ []) (c t : ℚ) :
    estimate H c t =
      { power_1h := pyRound (power_from_match (find_past_record t H 1) c t (1 / 10)) 3,
        power_24h := pyRound (power_from_match (find_past_record t H 24) c t (1 / 2)) 3,
        hours_left := pyRound (if 0 < c then
            c / combine_power (power_from_match (find_past_record t H 1) c t (1 / 10))
              (power_from_match (find_past_record t H 24) c t (1 / 2))
          else 9999) 1 } := by
  unfold estimate
  rw [calculate_estimated_time_ne_nil H hH c t]

/-- Once a best match is recorded, the scan can no longer return `none`. -/
lemma find_aux_some (target bound : ℚ) :
    ∀ (l : List Rec) (r : Rec) (m : Option ℚ),
      (find_aux target bound l (some r) m).isSome := by
  intro l
  induction l with
  | nil =>
    intro r m
    simp [find_aux]
  | cons x rest ih =>
    intro r m
    simp only [find_aux]
    by_cases hd : diffLt |x.time - target| m
    · simp only [if_pos hd]
      split
      · rfl
      · exact ih x (some |x.time - target|)
    · simp only [if_neg hd]
      split
      · rfl
      · exact ih r m

/-- On a non-empty history the search always yields a record: the best
candidate is recorded before the early-abort test is evaluated, already on
the first (most recent) record. -/
lemma find_past_record_isSome_of_ne_nil (now : ℚ) (H : List Rec) (hne : H ≠ [])
    (L : ℚ) : (find_past_record now H L).isSome := by
  obtain ⟨r, rest, hrev⟩ : ∃ r rest, H.reverse = r :: rest := by
    cases hR : H.reverse with
    | nil => exact absurd (List.reverse_eq_nil_iff.mp hR) hne
    | cons a l => exact ⟨a, l, rfl⟩
  unfold find_past_record
  rw [hrev]
  simp only [find_aux]
  have hd : diffLt |r.time - (now - 3600 * L)| (none : Option ℚ) := trivial
  simp only [if_pos hd]
  split
  · rfl
  · exact find_aux_some _ _ rest r _

/-- The invariant tying the running `best_match` to the running `min_diff`:
both are unset, or `min_diff` is exactly the best match's distance to the
target (they are only ever updated together). -/
def InvMD (target : ℚ) : Option Rec → Option ℚ → Prop
  | some b, some m => m = |b.time - target|
  | none, none => True
  | _, _ => False

/-- Main loop invariant of the reference search: on a time-descending list
whose entries all lie at most `bound` above the target, any record the scan
returns minimises the distance to the target over the whole list (and beats
the incoming candidate).  The early abort is sound: a break can only happen
strictly below the target, where later (older) records are farther away. -/
lemma find_aux_min (target bound now : ℚ) (hnt : now ≤ target + bound) :
    ∀ l : List Rec, (∀ x ∈ l, x.time ≤ now) →
      l.Pairwise (fun a b => b.time ≤ a.time) →
      ∀ (best : Option Rec) (minDiff : Option ℚ), InvMD target best minDiff →
      ∀ res, find_aux target bound l best minDiff = some res →
        (res ∈ l ∨ best = some res) ∧
        (∀ x ∈ l, |res.time - target| ≤ |x.time - target|) ∧
        (∀ b, best = some b → |res.time - target| ≤ |b.time - target|) := by
  intro l
  induction l with
  | nil =>
    intro _ _ best minDiff _ res hres
    simp only [find_aux] at hres
    subst hres
    refine ⟨Or.inr rfl, by simp, ?_⟩
    intro b hb
    injection hb with hb
    subst hb
    exact le_refl _
  | cons r rest ih =>
    intro hub hdesc best minDiff hinv res hres
    have hubr : r.time ≤ now := hub r (List.mem_cons_self r rest)
    have hubrest : ∀ x ∈ rest, x.time ≤ now := fun x hx => hub x (List.mem_cons_of_mem r hx)
    obtain ⟨hrle, hdrest⟩ := List.pairwise_cons.mp hdesc
    have hafter : bound < |r.time - target| →
        ∀ x ∈ rest, |r.time - target| ≤ |x.time - target| := by
      intro hbk x hx
      have hrt : r.time < target := by
        by_contra hcon
        push_neg at hcon
        rw [abs_of_nonneg (by linarith)] at hbk
        linarith
      have hxr : x.time ≤ r.time := hrle x hx
      rw [abs_of_nonpos (by linarith), abs_of_nonpos (by linarith)]
      linarith
    simp only [find_aux] at hres
    cases best with
    | none =>
      cases minDiff with
      | some m => exact absurd hinv (by simp [InvMD])
      | none =>
        have hd : diffLt |r.time - target| (none : Option ℚ) := trivial
        simp only [if_pos hd] at hres
        by_cases hbk : bound < |r.time - target|
        · rw [if_pos hbk] at hres
          injection hres with hres
          subst hres
          refine ⟨Or.inl (List.mem_cons_self r rest), ?_, ?_⟩
          · intro x hx
            rcases List.mem_cons.mp hx with h | h
            · subst h
              exact le_refl _
            · exact hafter hbk x h
          · intro b hb
            exact absurd hb (by simp)
        · rw [if_neg hbk] at hres
          obtain ⟨hmem, hmin, hbest⟩ :=
            ih hubrest hdrest (some r) (some |r.time - target|) rfl res hres
          have hrr : |res.time - target| ≤ |r.time - target| := hbest r rfl
          refine ⟨?_, ?_, ?_⟩
          · rcases hmem with h | h
            · exact Or.inl (List.mem_cons_of_mem r h)
            · injection h with h
              subst h
              exact Or.inl (List.mem_cons_self _ _)
          · intro x hx
            rcases List.mem_cons.mp hx with h | h
            · subst h
              exact hrr
            · exact hmin x h
          · intro b hb
            exact absurd hb (by simp)
    | some b =>
      cases minDiff with
      | none => exact absurd hinv (by simp [InvMD])
      | some m =>
        have hm : m = |b.time - target| := hinv
        by_cases hlt : diffLt |r.time - target| (some m)
        · have hlt2 : |r.time - target| < m := hlt
          rw [hm] at hlt2
          simp only [if_pos hlt] at hres
          by_cases hbk : bound < |r.time - target|
          · rw [if_pos hbk] at hres
            injection hres with hres
            subst hres
            refine ⟨Or.inl (List.mem_cons_self _ _), ?_, ?_⟩
            · intro x hx
              rcases List.mem_cons.mp hx with h | h
              · subst h
                exact le_refl _
              · exact hafter hbk x h
            · intro b0 hb0
              injection hb0 with hb0
              subst hb0
              exact le_of_lt hlt2
          · rw [if_neg hbk] at hres
            obtain ⟨hmem, hmin, hbest⟩ :=
              ih hubrest hdrest (some r) (some |r.time - target|) rfl res hres
            have hrr : |res.time - target| ≤ |r.time - target| := hbest r rfl
            refine ⟨?_, ?_, ?_⟩
            · rcases hmem with h | h
              · exact Or.inl (List.mem_cons_of_mem r h)
              · injection h with h
                subst h
                exact Or.inl (List.mem_cons_self _ _)
            · intro x hx
              rcases List.mem_cons.mp hx with h | h
              · subst h
                exact hrr
              · exact hmin x h
            · intro b0 hb0
              injection hb0 with hb0
              subst hb0
              exact le_of_lt (lt_of_le_of_lt hrr hlt2)
        · have hge : |b.time - target| ≤ |r.time - target| := by
            have hnot : ¬ |r.time - target| < m := fun hc => hlt hc
            rw [hm] at hnot
            exact not_lt.mp hnot
          simp only [if_neg hlt] at hres
          by_cases hbk : bound < |r.time - target|
          · rw [if_pos hbk] at hres
            injection hres with hres
            subst hres
            refine ⟨Or.inr rfl, ?_, ?_⟩
            · intro x hx
              rcases List.mem_cons.mp hx with h | h
              · subst h
                exact hge
              · exact le_trans hge (hafter hbk x h)
            · intro b0 hb0
              injection hb0 with hb0
              subst hb0
              exact le_refl _
          · rw [if_neg hbk] at hres
            obtain ⟨hmem, hmin, hbest⟩ :=
              ih hubrest hdrest (some b) (some m) hinv res hres
            have hrb : |res.time - target| ≤ |b.time - target| := hbest b rfl
            refine ⟨?_, ?_, ?_⟩
            · rcases hmem with h | h
              · exact Or.inl (List.mem_cons_of_mem r h)
              · exact Or.inr h
            · intro x hx
              rcases List.mem_cons.mp hx with h | h
              · subst h
                exact le_trans hrb hge
              · exact hmin x h
            · intro b0 hb0
              injection hb0 with hb0
              subst hb0
              exact hrb

/-! ### Theorems for the claims -/

/-- C6: with an empty history the estimator returns short-term rate 0,
long-term rate 0 and the sentinel 9999 as hours remaining (and hands the
history back untouched), for every current reading and timestamp. -/
theorem estimate_empty_history (c t : ℚ) :
    calculate_estimated_time [] c t =
      ({ power_1h := 0, power_24h := 0, hours_left := 9999 }, []) := rfl

/-- C7: the estimator leaves the history it was given unchanged — the
history component it threads back is exactly, record for record and field
for field, the input history. -/
theorem estimate_preserves_history (H : List Rec) (c t : ℚ) :
    (calculate_estimated_time H c t).2 = H := by
  unfold calculate_estimated_time
  split <;> rfl

/-- C2 counterexample: the short-term rate 1/2000 = 0.0005 is strictly
positive, yet the combine step does not use it — the 0.001 clamp threshold
overrides it and the combined rate is 0.01 instead. -/
theorem combine_power_positive_short_rate_cex :
    0 < (1 / 2000 : ℚ) ∧ combine_power (1 / 2000) 0 ≠ 1 / 2000 := by
  norm_num [combine_power]

/-- C2 (amended): the short-term rate is used when it exceeds the clamp
threshold 0.001; when it is non-positive the long-term rate is taken
instead, and used when that exceeds 0.001; whenever the chosen rate is at
most 0.001 — a positive short-term rate up to 0.001, or, with the
short-term rate non-positive, a long-term rate up to 0.001 (which covers
the non-positive-fallback case) — the combined rate is clamped to 0.01; in
every case the combined rate is strictly positive.  The four conditional
conjuncts cover all inputs. -/
theorem combine_power_spec (p1 p24 : ℚ) :
    (1 / 1000 < p1 → combine_power p1 p24 = p1) ∧
    (p1 ≤ 0 → 1 / 1000 < p24 → combine_power p1 p24 = p24) ∧
    (0 < p1 → p1 ≤ 1 / 1000 → combine_power p1 p24 = 1 / 100) ∧
    (p1 ≤ 0 → p24 ≤ 1 / 1000 → combine_power p1 p24 = 1 / 100) ∧
    0 < combine_power p1 p24 := by
  refine ⟨?_, ?_, ?_, ?_, combine_power_pos p1 p24⟩
  · intro h
    simp only [combine_power]
    rw [if_neg (show ¬ p1 ≤ 0 by linarith), if_neg (show ¬ p1 ≤ 1 / 1000 by linarith)]
  · intro h1 h24
    simp only [combine_power]
    rw [if_pos h1, if_neg (show ¬ p24 ≤ 1 / 1000 by linarith)]
  · intro h0 h1
    simp only [combine_power]
    rw [if_neg (show ¬ p1 ≤ 0 by linarith), if_pos h1]
  · intro h1 h24
    simp only [combine_power]
    rw [if_pos h1, if_pos h24]

/-- C2 witness: concrete instances of every amended combine rule, including
the clamping of a strictly positive short-term rate 0.0005 and of a
strictly positive fallback rate 0.0005. -/
theorem combine_power_spec_witness :
    combine_power 2 3 = 2 ∧ combine_power (-1) 2 = 2 ∧
      combine_power (1 / 2000) 0 = 1 / 100 ∧
      combine_power (-1) (1 / 2000) = 1 / 100 ∧
      combine_power (-1) (-1) = 1 / 100 :=
  ⟨(combine_power_spec 2 3).1 (by norm_num),
   (combine_power_spec (-1) 2).2.1 (by norm_num) (by norm_num),
   (combine_power_spec (1 / 2000) 0).2.2.1 (by norm_num) (by norm_num),
   (combine_power_spec (-1) (1 / 2000)).2.2.2.1 (by norm_num) (by norm_num),
   (combine_power_spec (-1) (-1)).2.2.2.1 (by norm_num) (by norm_num)⟩

/-- C4 counterexample: with threshold 10000 the sentinel value 9999 does
trigger the time-critical alert, so "the sentinel never triggers this rule
for every threshold value" fails. -/
theorem time_alert_sentinel_cex : time_alert 9999 10000 = true := by decide

/-- C4 (amended): the time-critical line is emitted iff
`0 < hours_left < threshold`; a non-positive `hours_left` never triggers it
for any threshold; the sentinel 9999 never triggers it whenever the
threshold is at most 9999 (in particular at the default 24 and at any
negative threshold). -/
theorem time_alert_spec (h th : ℚ) :
    (time_alert h th = true ↔ 0 < h ∧ h < th) ∧
    (h ≤ 0 → time_alert h th = false) ∧
    (h = 9999 → th ≤ 9999 → time_alert h th = false) := by
  refine ⟨?_, ?_, ?_⟩
  · simp [time_alert, and_comm]
  · intro hle
    simp [time_alert]
    intro h0
    linarith
  · intro hs hth
    subst hs
    simp [time_alert]
    linarith

/-- C4 witness: the amended alert rules at concrete inputs. -/
theorem time_alert_spec_witness :
    time_alert 10 24 = true ∧ time_alert (-1) 24 = false ∧
      time_alert 9999 24 = false ∧ time_alert 9999 (-5) = false :=
  ⟨(time_alert_spec 10 24).1.mpr (by norm_num),
   (time_alert_spec (-1) 24).2.1 (by norm_num),
   (time_alert_spec 9999 24).2.2 rfl (by norm_num),
   (time_alert_spec 9999 (-5)).2.2 rfl (by norm_num)⟩

/-- C8: loading the persisted store is total and returns the supplied
default both when the backing file is absent and when its contents do not
parse. -/
theorem load_json_default {α : Type} (contents : Option String)
    (parse : String → Option α) (default : α) :
    (contents = none → load_json contents parse default = default) ∧
    (∀ s, contents = some s → parse s = none →
      load_json contents parse default = default) := by
  constructor
  · intro h
    subst h
    rfl
  · intro s h hp
    subst h
    simp [load_json, hp]

/-- C8 witness: an absent file and an unparsable file both yield the
supplied default. -/
theorem load_json_default_witness :
    load_json none (fun _ : String => (none : Option ℕ)) 0 = 0 ∧
      load_json (some "corrupt") (fun _ : String => (none : Option ℕ)) 0 = 0 :=
  ⟨(load_json_default none (fun _ => none) 0).1 rfl,
   (load_json_default (some "corrupt") (fun _ => none) 0).2 "corrupt" rfl rfl⟩

/-- C1: for every time-ordered history with timestamps no later than `now`
and each lag L in {1, 24} hours, the reference search returns a record of
the history whose distance to `now - L` is minimal over all records — the
early abort never discards a closer record. -/
theorem find_past_record_closest (H : List Rec) (now L : ℚ)
    (_hL : L = 1 ∨ L = 24)
    (hsorted : H.Pairwise (fun a b => a.time ≤ b.time))
    (hpast : ∀ r ∈ H, r.time ≤ now)
    (hne : H ≠ []) :
    ∃ res, find_past_record now H L = some res ∧ res ∈ H ∧
      ∀ r ∈ H, |res.time - (now - 3600 * L)| ≤ |r.time - (now - 3600 * L)| := by
  obtain ⟨res, hres⟩ := Option.isSome_iff_exists.mp
    (find_past_record_isSome_of_ne_nil now H hne L)
  refine ⟨res, hres, ?_, ?_⟩
  all_goals {
    have hrev_ub : ∀ x ∈ H.reverse, x.time ≤ now :=
      fun x hx => hpast x (List.mem_reverse.mp hx)
    have hrev_desc : H.reverse.Pairwise (fun a b => b.time ≤ a.time) :=
      List.pairwise_reverse.mpr hsorted
    have hnt : now ≤ (now - 3600 * L) + 3600 * (L + 1) := by linarith
    obtain ⟨hmem, hmin, -⟩ := find_aux_min (now - 3600 * L) (3600 * (L + 1)) now hnt
      H.reverse hrev_ub hrev_desc none none trivial res hres
    first
    | (rcases hmem with h | h
       · exact List.mem_reverse.mp h
       · exact absurd h (by simp))
    | (intro r hr
       exact hmin r (List.mem_reverse.mpr hr))
  }

/-- C1 witness: in a two-record history the record one hour before `now`
is the 1h-lag reference and minimises the distance. -/
theorem find_past_record_closest_witness :
    ∃ res, find_past_record 7200 [⟨0, 50⟩, ⟨3600, 45⟩] 1 = some res ∧
      res ∈ [⟨0, 50⟩, (⟨3600, 45⟩ : Rec)] ∧
      ∀ r ∈ [⟨0, 50⟩, (⟨3600, 45⟩ : Rec)],
        |res.time - (7200 - 3600 * 1)| ≤ |r.time - (7200 - 3600 * 1)| :=
  find_past_record_closest [⟨0, 50⟩, ⟨3600, 45⟩] 7200 1 (Or.inl rfl)
    (by
      refine List.Pairwise.cons ?_ (List.pairwise_singleton _ _)
      intro x hx
      rw [List.mem_singleton.mp hx]
      norm_num)
    (by
      intro r hr
      rcases List.mem_cons.mp hr with h | h
      · rw [h]
        norm_num
      · rw [List.mem_singleton.mp h]
        norm_num)
    (by simp)

/-- C9: for every non-empty history the reference search returns a match
for both the 1h and the 24h lag — it never reports no-match, because the
best candidate is recorded before the early-abort test already on the first
record examined. -/
theorem find_past_record_total (H : List Rec) (now : ℚ) (hne : H ≠ []) :
    (find_past_record now H 1).isSome ∧ (find_past_record now H 24).isSome :=
  ⟨find_past_record_isSome_of_ne_nil now H hne 1,
   find_past_record_isSome_of_ne_nil now H hne 24⟩

/-- C9 witness: a single prior reading 5 hours old still serves as the
reference for both lags. -/
theorem find_past_record_total_witness :
    (find_past_record 18000 [⟨0, 50⟩] 1).isSome ∧
      (find_past_record 18000 [⟨0, 50⟩] 24).isSome :=
  find_past_record_total [⟨0, 50⟩] 18000 (by simp)

/-- C3: hours_left is never negative, and it equals the sentinel 9999
whenever the current balance is non-positive, for every history and
current reading. -/
theorem hours_left_nonneg_sentinel (H : List Rec) (c t : ℚ) :
    0 ≤ (estimate H c t).hours_left ∧
      (c ≤ 0 → (estimate H c t).hours_left = 9999) := by
  by_cases hH : H = []
  · subst hH
    constructor
    · norm_num [estimate, calculate_estimated_time]
    · intro _
      norm_num [estimate, calculate_estimated_time]
  · rw [estimate_ne_nil H hH c t]
    constructor
    · by_cases hc : 0 < c
      · rw [if_pos hc]
        exact pyRound_nonneg (le_of_lt (div_pos hc (combine_power_pos _ _))) 1
      · rw [if_neg hc, pyRound_9999]
        norm_num
    · intro hc
      rw [if_neg (not_lt.mpr hc)]
      exact pyRound_9999

/-- C3 witness: with a non-positive balance the estimator reports the
sentinel, which is non-negative. -/
theorem hours_left_nonneg_sentinel_witness :
    0 ≤ (estimate [⟨0, 50⟩] (-5) 3600).hours_left ∧
      (estimate [⟨0, 50⟩] (-5) 3600).hours_left = 9999 :=
  ⟨(hours_left_nonneg_sentinel [⟨0, 50⟩] (-5) 3600).1,
   (hours_left_nonneg_sentinel [⟨0, 50⟩] (-5) 3600).2 (by norm_num)⟩

/-- C5: each per-lag rate is the quotient of the balance difference by the
elapsed hours only when the elapsed time strictly exceeds the minimum
threshold (0.1h for the 1h lag, 0.5h for the 24h lag); otherwise the rate
stays 0, so the division is never performed with a near-zero divisor. -/
theorem rate_division_guard (H : List Rec) (c t : ℚ) :
    (∀ r, find_past_record t H 1 = some r → (t - r.time) / 3600 ≤ 1 / 10 →
      (estimate H c t).power_1h = 0) ∧
    (∀ r, find_past_record t H 24 = some r → (t - r.time) / 3600 ≤ 1 / 2 →
      (estimate H c t).power_24h = 0) ∧
    (∀ (r : Rec) (ck ct mh : ℚ), mh < (ct - r.time) / 3600 →
      power_from_match (some r) ck ct mh = (r.kwh - ck) / ((ct - r.time) / 3600)) := by
  have hne : ∀ (L : ℚ) (r : Rec), find_past_record t H L = some r → H ≠ [] := by
    intro L r h hnil
    subst hnil
    simp [find_past_record, find_aux] at h
  refine ⟨?_, ?_, ?_⟩
  · intro r hm hle
    rw [estimate_ne_nil H (hne 1 r hm) c t]
    show pyRound (power_from_match (find_past_record t H 1) c t (1 / 10)) 3 = 0
    rw [hm]
    simp only [power_from_match]
    rw [if_neg (not_lt.mpr hle)]
    exact pyRound_zero 3
  · intro r hm hle
    rw [estimate_ne_nil H (hne 24 r hm) c t]
    show pyRound (power_from_match (find_past_record t H 24) c t (1 / 2)) 3 = 0
    rw [hm]
    simp only [power_from_match]
    rw [if_neg (not_lt.mpr hle)]
    exact pyRound_zero 3
  · intro r ck ct mh hlt
    simp only [power_from_match]
    rw [if_pos hlt]

/-- C5 witness: a reference only 180 seconds (0.05h) old leaves both rates
at 0, while a reference a full hour old yields the quotient (50-45)/1 = 5. -/
theorem rate_division_guard_witness :
    (estimate [⟨35820, 50⟩] 49 36000).power_1h = 0 ∧
    (estimate [⟨35820, 50⟩] 49 36000).power_24h = 0 ∧
    power_from_match (some ⟨0, 50⟩) 45 3600 (1 / 10) = 5 := by
  have h1 : find_past_record 36000 [⟨35820, 50⟩] 1 = some ⟨35820, 50⟩ := by
    norm_num [find_past_record, find_aux, diffLt, abs]
  have h24 : find_past_record 36000 [⟨35820, 50⟩] 24 = some ⟨35820, 50⟩ := by
    norm_num [find_past_record, find_aux, diffLt, abs]
  refine ⟨(rate_division_guard [⟨35820, 50⟩] 49 36000).1 ⟨35820, 50⟩ h1 (by norm_num),
    (rate_division_guard [⟨35820, 50⟩] 49 36000).2.1 ⟨35820, 50⟩ h24 (by norm_num), ?_⟩
  have h3 := (rate_division_guard [⟨35820, 50⟩] 49 36000).2.2
    ⟨0, 50⟩ 45 3600 (1 / 10) (by norm_num)
  rw [h3]
  norm_num

/-- C10: the sentinel 9999 is not an upper bound on hours_left: a history
whose only record is 180 seconds old leaves both rates 0 (non-positive), the
combined rate is clamped to 0.01, and a balance of 200 kWh yields
hours_left = 20000 > 9999. -/
theorem hours_left_exceeds_sentinel :
    (estimate [⟨35820, 50⟩] 200 36000).power_1h = 0 ∧
    (estimate [⟨35820, 50⟩] 200 36000).power_24h = 0 ∧
    (estimate [⟨35820, 50⟩] 200 36000).hours_left = 20000 ∧
    9999 < (estimate [⟨35820, 50⟩] 200 36000).hours_left := by
  have h : estimate [⟨35820, 50⟩] 200 36000 = ⟨0, 0, 20000⟩ := by
    norm_num [estimate, calculate_estimated_time, find_past_record, find_aux, diffLt,
      abs, power_from_match, combine_power, pyRound, roundHalfEven]
  rw [h]
  norm_num

end ElectronMonitor
